import Mathlib

/-!
Shallow embedding of `src/data/parse-sql-data.py`: a batch converter that
extracts rows from `INSERT INTO \x7bbacktick\x7dalerta_cooperativa_sicoob` statements in a
SQL dump and re-emits them as JSON/CSV artifacts grouped by `cd_cooperativa`.

Python exceptions (the `int(val)` conversion in `parse_sql_insert_values` can
raise `ValueError`) are modelled with `Except String`; file/console side
effects of `main` are modelled as an explicit effect trace.
-/

set_option autoImplicit false
set_option maxRecDepth 100000
set_option maxHeartbeats 1000000

-- Decidable equality on `Except`, for evaluating the parser on concrete inputs.
deriving instance DecidableEq for Except

namespace ParseSqlData

/-- Python's `\s` character class (ASCII part): space, tab, newline, carriage
return, vertical tab, form feed.  Used both for the regex `\s*` and for
`str.strip()` / `int()` whitespace stripping. -/
def isPySpace (c : Char) : Bool :=
  c = ' ' || c = '\t' || c = '\n' || c = '\r' || c = Char.ofNat 11 || c = Char.ofNat 12

/-- Strip characters satisfying `p` from both ends of a character list
(Python `str.strip(chars)`). -/
def stripChars (p : Char → Bool) (s : List Char) : List Char :=
  ((s.dropWhile p).reverse.dropWhile p).reverse

/-- Python `str.strip()` on a string (whitespace from both ends). -/
def pyStrip (s : String) : String :=
  String.mk (stripChars isPySpace s.toList)

/-- The fixed 62-column schema `COLUMNS` of table `alerta_cooperativa_sicoob`. -/
def COLUMNS : List String := [
  "cd_sistema", "cd_central", "cd_cooperativa", "ano", "mes",
  "nota_sobras_ou_perdas_sobre_recursos_totais", "nota_inadimplencia",
  "nota_liquidez_na_central", "nota_adto_depositante",
  "nota_custo_fixo_sobre_total_recursos", "nota_tarifas_sobre_custo_fixo",
  "nota_honorarios_e_cedula_sobre_custo_fixo", "nota_folha_encargos_sobre_total_recursos",
  "nota_receita_financeira_sobre_total_recursos", "nota_retorno_carteira_de_credito",
  "nota_despesas_financeiras_sobre_recursos_captados", "nota_despesas_captacao_sobre_dep_prazo",
  "nota_resultado_PCLD_sobre_despesas_totais_mes", "nota_resultado_PCLD_sobre_total_recursos",
  "nota_liquidez_geral", "nota_participacao_capital_proprio",
  "nota_rentabilidade_sobras_sobre_receitas_brutas", "nota_rentabilidade_sobre_capital_proprio",
  "nota_evolucao_quadro_social", "nota_limite_exposicao_por_cliente",
  "nota_concentacao_carteira_credito", "nota_enquadramento_PRE",
  "nota_concentracao_depositos", "nota_imobilizacao_capital_proprio",
  "nota_evolucao_patrimonial",
  "alerta_sobras_ou_perdas_sobre_recursos_totais", "alerta_inadimplencia",
  "alerta_liquidez_na_central", "alerta_adto_depositante",
  "alerta_custo_fixo_sobre_total_recursos", "alerta_tarifas_sobre_custo_fixo",
  "alerta_honorarios_e_cedula_sobre_custo_fixo", "alerta_folha_encargos_sobre_total_recursos",
  "alerta_receita_financeira_sobre_total_recursos", "alerta_retorno_carteira_de_credito",
  "alerta_despesas_financeiras_sobre_recursos_captados", "alerta_despesas_captacao_sobre_dep_prazo",
  "alerta_resultado_PCLD_sobre_despesas_totais_mes", "alerta_resultado_PCLD_sobre_total_recursos",
  "alerta_liquidez_geral", "alerta_participacao_capital_proprio",
  "alerta_rentabilidade_sobras_sobre_receitas_brutas", "alerta_rentabilidade_sobre_capital_proprio",
  "alerta_evolucao_quadro_social", "alerta_limite_exposicao_por_cliente",
  "alerta_concentacao_carteira_credito", "alerta_enquadramento_PRE",
  "alerta_concentracao_depositos", "alerta_imobilizacao_capital_proprio",
  "alerta_evolucao_patrimonial",
  "total", "nu_justificativa", "nu_plano",
  "tx_justificativa", "tx_plano", "st_justificativa", "st_plano"]

/-- A parsed field value: Python `None`, `int`, or `str`. -/
inductive FieldValue where
  | null
  | intVal (n : Int)
  | strVal (s : String)
  deriving DecidableEq, Repr

/-- A parsed record: the Python dict built by inserting `COLUMNS` keys in
order, modelled as an insertion-ordered association list. -/
abbrev Record := List (String × FieldValue)

/-! ### Python `int()` on strings -/

/-- Digits (with single underscores allowed between digits, as Python's
`int` grammar permits) accumulated into a `Nat`; the first character has
already been checked to be a digit. -/
def parseDigitsAux (acc : Nat) : List Char → Option Nat
  | [] => some acc
  | '_' :: c :: cs =>
      if c.isDigit then parseDigitsAux (acc * 10 + (c.toNat - 48)) cs else none
  | '_' :: [] => none
  | c :: cs =>
      if c.isDigit then parseDigitsAux (acc * 10 + (c.toNat - 48)) cs else none

/-- A nonempty digit run (underscores between digits allowed). -/
def parseDigits : List Char → Option Nat
  | [] => none
  | c :: cs => if c.isDigit then parseDigitsAux (c.toNat - 48) cs else none

/-- Python `int(s)` for base 10: strips surrounding whitespace, allows an
optional sign, then a nonempty digit run.  `none` models `ValueError`. -/
def pyInt? (s : String) : Option Int :=
  match stripChars isPySpace s.toList with
  | '+' :: rest => (parseDigits rest).map Int.ofNat
  | '-' :: rest => (parseDigits rest).map (fun n => -(n : Int))
  | rest => (parseDigits rest).map Int.ofNat

/-! ### The tuple tokenizer

The character loop of `parse_sql_insert_values` (lines 67-88): state is the
accumulated `values`, the `current_value` buffer and the `in_quotes` flag. -/

/-- One row's character loop plus the final flush.  Mirrors the Python loop:
a quote toggles `in_quotes` (opening resets the buffer, closing appends it
unstripped), an unquoted comma appends the stripped buffer only when it is
nonempty after stripping, every other character is buffered.  After the loop
the stripped buffer is appended when nonempty. -/
def tokAux : List Char → List String → List Char → Bool → List String
  | [], values, current, _ =>
      if pyStrip (String.mk current) ≠ "" then values ++ [pyStrip (String.mk current)]
      else values
  | c :: cs, values, current, inQ =>
      if c = '\'' then
        if inQ then tokAux cs (values ++ [String.mk current]) [] false
        else tokAux cs values [] true
      else if c = ',' ∧ inQ = false then
        (if pyStrip (String.mk current) ≠ "" then
          tokAux cs (values ++ [pyStrip (String.mk current)]) [] inQ
        else tokAux cs values [] inQ)
      else tokAux cs values (current ++ [c]) inQ

/-- Tokenize one (already cleaned) row into its `values` list. -/
def tokenizeRow (row : List Char) : List String :=
  tokAux row [] [] false

/-- `row.strip().strip('()')` (line 64). -/
def cleanRow (row : List Char) : List Char :=
  stripChars (fun c => c = '(' || c = ')') (stripChars isPySpace row)

/-! ### Type coercion (lines 93-104) -/

/-- Python `str.startswith`, via the character lists. -/
def strStartsWith (s pre : String) : Bool :=
  pre.toList.isPrefixOf s.toList

/-- The auxiliary integer columns named in the membership test of line 97. -/
def auxIntCols : List String :=
  ["total", "nu_justificativa", "nu_plano", "st_justificativa", "st_plano"]

/-- The two-character string of two single quotes, the second literal of the
null check on line 95. -/
def quotedEmpty : String := String.mk ['\'', '\'']

/-- Coerce one token for one column, in the branch order of the source:
empty / quoted-empty to `None`; `ano`, `mes`, the `nota_` / `alerta_`
indicator columns and the auxiliary integer columns, and the `cd_` codes
through `int()`; everything else kept as text.  `Except.error` carries the
offending token of a failed `int()`. -/
def typeValue (col val : String) : Except String FieldValue :=
  if val = "" || val = quotedEmpty then .ok .null
  else if col = "ano" || col = "mes" then
    match pyInt? val with
    | some n => .ok (.intVal n)
    | none => .error val
  else if strStartsWith col "nota_" || strStartsWith col "alerta_" || auxIntCols.contains col then
    match pyInt? val with
    | some n => .ok (.intVal n)
    | none => .error val
  else if col = "cd_sistema" || col = "cd_central" || col = "cd_cooperativa" then
    match pyInt? val with
    | some n => .ok (.intVal n)
    | none => .error val
  else .ok (.strVal val)

/-- Build a record from the `zip(COLUMNS, values)` pairs, raising (as
`Except.error`) at the first token `int()` cannot convert. -/
def buildRecord : List (String × String) → Except String Record
  | [] => .ok []
  | (col, val) :: rest =>
      match typeValue col val with
      | .error e => .error e
      | .ok v =>
          match buildRecord rest with
          | .error e => .error e
          | .ok r => .ok ((col, v) :: r)

/-- Process one raw row string (lines 62-106): clean, tokenize, and—only
when the token count equals the column count—type it into a record.
`.ok none` is a silently dropped row; `.error` a propagating `ValueError`. -/
def processRow (row : List Char) : Except String (Option Record) :=
  let values := tokenizeRow (cleanRow row)
  if values.length = COLUMNS.length then
    match buildRecord (COLUMNS.zip values) with
    | .ok r => .ok (some r)
    | .error e => .error e
  else .ok none

/-- Process a list of rows in order, collecting the produced records; the
first `ValueError` aborts the whole parse, as a Python exception would. -/
def processRows : List (List Char) → Except String (List Record)
  | [] => .ok []
  | row :: rest =>
      match processRow row with
      | .error e => .error e
      | .ok o =>
          match processRows rest with
          | .error e => .error e
          | .ok rs =>
              match o with
              | some r => .ok (r :: rs)
              | none => .ok rs

/-! ### The two regexes

`re.findall(r"INSERT INTO \x7bbacktick\x7dalerta_cooperativa_sicoob\x7bbacktick\x7d.*?VALUES\s*\(([^;]+)\);", ...)`
with `DOTALL`, and `re.split(r'\),\s*\(', match)`. -/

/-- The literal prefix of the INSERT pattern. -/
def insertMarker : List Char := "INSERT INTO `alerta_cooperativa_sicoob`".toList

/-- Try to match `VALUES\s*\(([^;]+)\);` at the head of `s`; on success
return the capture group and the remainder after the match.  `[^;]+` is a
maximal `;`-free run which, for the whole pattern to match, must end in `)`
immediately followed by `;`, the capture being the run without that `)`. -/
def tryValuesAt (s : List Char) : Option (List Char × List Char) :=
  if "VALUES".toList.isPrefixOf s then
    let rest := (s.drop 6).dropWhile isPySpace
    match rest with
    | '(' :: body =>
        let run := body.takeWhile (fun c => c ≠ ';')
        (match body.dropWhile (fun c => c ≠ ';') with
         | ';' :: tail =>
             if 2 ≤ run.length && run.getLast? = some ')' then
               some (run.dropLast, tail)
             else none
         | _ => none)
    | _ => none
  else none

/-- Lazy `.*?`: scan forward for the first position where the `VALUES`
part matches. -/
def findValues : List Char → Option (List Char × List Char)
  | [] => none
  | s@(_ :: tl) =>
      match tryValuesAt s with
      | some r => some r
      | none => findValues tl

/-- Find the leftmost full match of the INSERT pattern: the first
occurrence of the literal marker from which the `VALUES` part also
matches somewhere after it. -/
def findInsert : List Char → Option (List Char × List Char)
  | [] => none
  | s@(_ :: tl) =>
      if insertMarker.isPrefixOf s then
        match findValues (s.drop insertMarker.length) with
        | some r => some r
        | none => findInsert tl
      else findInsert tl

/-- `re.findall`: repeatedly take the leftmost match and continue after it.
Each match consumes at least one character, so `fuel := s.length` bounds the
number of matches. -/
def findAllAux : Nat → List Char → List (List Char)
  | 0, _ => []
  | fuel + 1, s =>
      match findInsert s with
      | none => []
      | some (cap, rest) => cap :: findAllAux fuel rest

/-- All capture groups of the INSERT pattern over the SQL text. -/
def findAllInserts (s : List Char) : List (List Char) :=
  findAllAux s.length s

/-- `re.split(r'\),\s*\(', s)`: split on `),` followed by optional
whitespace and `(`.  Fuel-driven single pass; each step consumes at least
one character, so `s.length + 1` fuel always suffices. -/
def splitRowsAux : Nat → List Char → List Char → List (List Char)
  | 0, s, cur => [cur ++ s]
  | _ + 1, [], cur => [cur]
  | fuel + 1, c :: cs, cur =>
      if c = ')' then
        match cs with
        | ',' :: cs2 =>
            (match cs2.dropWhile isPySpace with
             | '(' :: cs3 => cur :: splitRowsAux fuel cs3 []
             | _ => splitRowsAux fuel cs (cur ++ [c]))
        | _ => splitRowsAux fuel cs (cur ++ [c])
      else splitRowsAux fuel cs (cur ++ [c])

/-- Split one VALUES capture into its per-tuple row strings. -/
def splitRows (s : List Char) : List (List Char) :=
  splitRowsAux (s.length + 1) s []

/-- All raw rows of the SQL text, in text order: every match's rows,
concatenated in match order. -/
def allRows (sql : String) : List (List Char) :=
  (findAllInserts sql.toList).flatMap splitRows

/-- `parse_sql_insert_values` (lines 48-108): extract every INSERT match,
split it into rows, and process the rows in order.  `Except.error` models a
propagating `ValueError` from `int()`. -/
def parse_sql_insert_values (sql : String) : Except String (List Record) :=
  processRows (allRows sql)

/-! ### The writers (`save_to_json`, lines 110-147, and `save_to_csv`,
lines 149-160) and `main` (lines 162-206), modelled as pure data plus an
effect trace. -/

/-- Python `str()` of a field value, as used in the f-string building the
cooperativa key. -/
def fieldStr : FieldValue → String
  | .null => "None"
  | .intVal n => toString n
  | .strVal s => s

/-- `record[col]`.  Records built by the parser always carry all 62
columns, so the `.null` default is never exercised on parser output. -/
def lookupField (r : Record) (col : String) : FieldValue :=
  match r.lookup col with
  | some v => v
  | none => .null

/-- The grouping key `f"cooperativa_\x7brecord['cd_cooperativa']\x7d"`. -/
def coopKey (r : Record) : String :=
  "cooperativa_" ++ fieldStr (lookupField r "cd_cooperativa")

/-- Append `r` to the group keyed `k`, creating the group at the end when
absent — the insertion-ordered dict update of lines 116-120. -/
def addToGroup : List (String × List Record) → String → Record → List (String × List Record)
  | [], k, r => [(k, [r])]
  | (k', rs) :: gs, k, r =>
      if k' = k then (k', rs ++ [r]) :: gs
      else (k', rs) :: addToGroup gs k r

/-- The `by_cooperativa` dict of `save_to_json`: fold every record into the
group of its key, in record order. -/
def by_cooperativa (records : List Record) : List (String × List Record) :=
  records.foldl (fun gs r => addToGroup gs (coopKey r) r) []

/-- The consolidated JSON document (lines 122-131). -/
structure ConsolidatedJson where
  total_records : Nat
  total_cooperativas : Nat
  fonte : String
  data_extracao : String
  data : List Record
  deriving DecidableEq, Repr

/-- One per-cooperativa JSON document (lines 141-146). -/
structure CoopFile where
  cooperativa : FieldValue
  total_registros : Nat
  periodos : List Record
  deriving DecidableEq, Repr

/-- The consolidated document built from the parsed records. -/
def consolidated (records : List Record) : ConsolidatedJson :=
  { total_records := records.length
    total_cooperativas := (by_cooperativa records).length
    fonte := "grc-web.sql"
    data_extracao := "2025-10-23"
    data := records }

/-- The per-cooperativa document of one group (`coop_records[0]` is the
group's first record; groups are nonempty by construction). -/
def coopFileOf (g : String × List Record) : CoopFile :=
  { cooperativa := lookupField (g.2.headD []) "cd_cooperativa"
    total_registros := g.2.length
    periodos := g.2 }

/-- `save_to_json` as data: the consolidated document plus one keyed
document per cooperativa group, in group order. -/
def save_to_json_model (records : List Record) :
    ConsolidatedJson × List (String × CoopFile) :=
  (consolidated records, (by_cooperativa records).map (fun g => (g.1, coopFileOf g)))

/-- One CSV cell as Python's `csv` module renders a dict value: `None`
becomes the empty field, integers their decimal form, text itself. -/
def csvCell : FieldValue → String
  | .null => ""
  | .intVal n => toString n
  | .strVal s => s

/-- One CSV data row: the record's values in `COLUMNS` (fieldnames) order. -/
def csvRowOf (r : Record) : List String :=
  COLUMNS.map (fun c => csvCell (lookupField r c))

/-- `save_to_csv`: `none` when the record list is empty (the function
returns after a warning, writing nothing); otherwise the header row
followed by one data row per record, in record order. -/
def save_to_csv_model (records : List Record) : Option (List (List String)) :=
  if records.isEmpty then none
  else some (COLUMNS :: records.map csvRowOf)

/-- The integer-designated columns of the schema: the `cd_` codes, `ano`,
`mes`, every `nota_` and `alerta_` indicator, and the auxiliary integer
columns — exactly the columns routed through `int()` by lines 96-100. -/
def isIntCol (col : String) : Bool :=
  col = "cd_sistema" || col = "cd_central" || col = "cd_cooperativa" ||
  col = "ano" || col = "mes" ||
  strStartsWith col "nota_" || strStartsWith col "alerta_" ||
  col = "total" || col = "nu_justificativa" || col = "nu_plano" ||
  col = "st_justificativa" || col = "st_plano"

/-- The single all-zero 62-field row of `goodSql`. -/
def goodRow : List Char :=
  ("0" ++ String.join (List.replicate 61 ",0")).toList

/-- The record a row contributes to the output: `some` exactly when the row
is typed into a record (neither dropped nor raising). -/
def rowRecord? (row : List Char) : Option Record :=
  match processRow row with
  | .ok (some r) => some r
  | _ => none

/-! ### Concrete inputs used to evaluate the pipeline -/

/-- A well-formed INSERT statement with one 62-value tuple, every value the
unquoted literal `0`. -/
def goodSql : String :=
  "INSERT INTO `alerta_cooperativa_sicoob` VALUES (0" ++
    String.join (List.replicate 61 ",0") ++ ");"

/-- The record `goodSql` parses to: every column `0`, the two free-text
columns as text and the rest as integers. -/
def goodRec : Record :=
  COLUMNS.map (fun c =>
    (c, if c = "tx_justificativa" || c = "tx_plano" then FieldValue.strVal "0"
        else FieldValue.intVal 0))

/-- An INSERT statement whose single tuple has 62 fields but a
non-numeric first field `x` in the integer column `cd_sistema`. -/
def badIntSql : String :=
  "INSERT INTO `alerta_cooperativa_sicoob` VALUES (x" ++
    String.join (List.replicate 61 ",0") ++ ");"

/-- An INSERT statement whose single tuple has 62 comma-separated slots,
the first of which is empty (unquoted). -/
def emptySlotSql : String :=
  "INSERT INTO `alerta_cooperativa_sicoob` VALUES (" ++
    String.join (List.replicate 61 ",0") ++ ");"

/-- The single row of `emptySlotSql`: 62 comma-separated slots whose first
slot is empty. -/
def emptySlotRow : List Char :=
  (String.join (List.replicate 61 ",0")).toList

/-- A single 62-field tuple row whose fourth field (`ano`) is the
non-numeric token `9z`. -/
def badAnoRow : List Char :=
  ("0,0,0,9z" ++ String.join (List.replicate 58 ",0")).toList

/-- An INSERT statement containing `badAnoRow` as its single tuple. -/
def badAnoSql : String :=
  "INSERT INTO `alerta_cooperativa_sicoob` VALUES (0,0,0,9z" ++
    String.join (List.replicate 58 ",0") ++ ");"

/-- An observable side effect of `main`: a console message, the read of the
source SQL file, or the write of an output file. -/
inductive Effect where
  | print (msg : String)
  | readSource
  | write (path : String)
  deriving DecidableEq, Repr

/-- The console report for a missing source file (line 174). -/
def msgMissing : String := "❌ Arquivo SQL não encontrado"

/-- The console warning for zero extracted records (line 204). -/
def msgNoRecords : String := "⚠️  Nenhum registro encontrado"

/-- The file writes and prints of `save_to_json`: the consolidated file,
then one file per cooperativa group under `balances/`. -/
def save_to_json_effects (records : List Record) : List Effect :=
  Effect.write "alerta_cooperativa_sicoob.json" ::
  Effect.print "JSON salvo" ::
  (by_cooperativa records).flatMap (fun g =>
    [Effect.write ("balances/" ++ g.1 ++ ".json"),
     Effect.print "JSON por cooperativa salvo"])

/-- The file write (or warning) of `save_to_csv`. -/
def save_to_csv_effects (records : List Record) : List Effect :=
  if records.isEmpty then [Effect.print "⚠️  Nenhum registro para salvar"]
  else [Effect.write "alerta_cooperativa_sicoob.csv", Effect.print "CSV salvo"]

/-- `main` as an effect trace, parameterised by whether the source file
exists and by its content.  Console banners and statistics are abbreviated
to fixed tags; a propagating `ValueError` from the parse is the `.error`
case (the partial console output preceding an exception is not modelled). -/
def main_model (sql_file_exists : Bool) (sql_content : String) :
    Except String (List Effect) :=
  let banner := [Effect.print "================",
                 Effect.print "EXPORTANDO DADOS DO SQL PARA JSON E CSV",
                 Effect.print "================"]
  if !sql_file_exists then .ok (banner ++ [Effect.print msgMissing])
  else
    match parse_sql_insert_values sql_content with
    | .error e => .error e
    | .ok records =>
        let pre := banner ++
          [Effect.print "📂 Lendo arquivo SQL", Effect.readSource,
           Effect.print "Arquivo lido", Effect.print "🔍 Extraindo dados",
           Effect.print "Extraídos registros"]
        if records.isEmpty then
          .ok (pre ++ [Effect.print msgNoRecords, Effect.print "================"])
        else
          .ok (pre ++
            [Effect.print "📊 Estatísticas", Effect.print "💾 Salvando arquivos"] ++
            save_to_json_effects records ++ save_to_csv_effects records ++
            [Effect.print "Exportação concluída com sucesso",
             Effect.print "================"])

end ParseSqlData

namespace ParseSqlData

/-! ## Theorems -/

/-- While `in_quotes` is set, every character that is not a quote — commas
included — is appended to the current buffer and never delimits a field. -/
theorem tokAux_inQuotes (s : List Char) :
    ∀ (rest : List Char) (values : List String) (cur : List Char),
    (∀ c ∈ s, c ≠ '\'') →
    tokAux (s ++ rest) values cur true = tokAux rest values (cur ++ s) true := by
  induction s with
  | nil => intro rest values cur _; simp
  | cons c s ih =>
      intro rest values cur h
      have hc : c ≠ '\'' := h c (by simp)
      have h' : ∀ x ∈ s, x ≠ '\'' := fun x hx => h x (by simp [hx])
      simp only [List.cons_append, tokAux, if_neg hc]
      rw [if_neg (by simp), List.append_eq, ih rest values (cur ++ [c]) h']
      simp

/-- C5: a comma inside a single-quoted string literal never acts as a field
delimiter: tokenizing a quoted literal yields its full content — commas
included — as a single field. -/
theorem quoted_commas_single_field (s : List Char) (h : '\'' ∉ s) :
    tokenizeRow ('\'' :: (s ++ ['\''])) = [String.mk s] := by
  unfold tokenizeRow
  have h1 : tokAux ('\'' :: (s ++ ['\''])) [] [] false
      = tokAux (s ++ ['\'']) [] [] true := by
    simp [tokAux]
  rw [h1, tokAux_inQuotes s ['\''] [] [] (fun c hc => by
    intro hc'; exact h (hc' ▸ hc))]
  simp [tokAux, pyStrip, stripChars]

/-- Witness for C5 at the literal content `a,b`. -/
theorem quoted_commas_single_field_witness :
    '\'' ∉ "a,b".toList ∧
    tokenizeRow ('\'' :: ("a,b".toList ++ ['\''])) = [String.mk "a,b".toList] :=
  ⟨by decide, quoted_commas_single_field "a,b".toList (by decide)⟩

/-- C2 counterexample: an unquoted empty token is omitted from the token
list, not coerced to null.  Tokenizing `,0` yields one token, and the
62-slot tuple of `emptySlotSql`, whose first slot is empty, tokenizes to
61 tokens and so produces no record at all — its empty slot never becomes
a null field of any record. -/
theorem empty_token_omitted_counterexample :
    tokenizeRow ",0".toList = ["0"] ∧
    allRows emptySlotSql = [emptySlotRow] ∧
    (tokenizeRow (cleanRow emptySlotRow)).length = 61 ∧
    parse_sql_insert_values emptySlotSql = .ok [] :=
  ⟨by decide, by decide, by decide, by decide⟩

/-- C2 as amended: a quoted-empty literal is kept as an empty token, and an
empty token is coerced to null by the type-conversion step; an unquoted
slot that is empty after stripping is omitted from the token list. -/
theorem empty_tokens_amended (cs : List Char) (values : List String)
    (cur : List Char) (col : String) :
    (tokAux ('\'' :: '\'' :: cs) values cur false = tokAux cs (values ++ [""]) [] false) ∧
    (pyStrip (String.mk cur) = "" →
      tokAux (',' :: cs) values cur false = tokAux cs values [] false) ∧
    typeValue col "" = .ok .null := by
  refine ⟨?_, ?_, ?_⟩
  · simp [tokAux]
  · intro h; simp [tokAux, h]
  · simp [typeValue]

/-- Witness for the amended C2 at concrete tokenizer states. -/
theorem empty_tokens_amended_witness :
    (tokAux ['\'', '\''] [] [] false = tokAux [] [""] [] false) ∧
    (tokAux [','] [] [] false = tokAux [] [] [] false) ∧
    typeValue "ano" "" = .ok .null := by
  have h := empty_tokens_amended [] [] [] "ano"
  exact ⟨h.1, h.2.1 (by decide), h.2.2⟩

/-- C4: a tuple whose token count is not the schema length produces no
record and no error, and removing it from any row list leaves the parse of
the remaining rows unchanged. -/
theorem wrong_count_row_dropped (row : List Char)
    (h : (tokenizeRow (cleanRow row)).length ≠ COLUMNS.length) :
    COLUMNS.length = 62 ∧
    processRow row = .ok none ∧
    ∀ (pre post : List (List Char)),
      processRows (pre ++ row :: post) = processRows (pre ++ post) := by
  have hrow : processRow row = .ok none := by
    unfold processRow
    simp [h]
  refine ⟨by decide, hrow, ?_⟩
  intro pre post
  induction pre with
  | nil =>
      simp only [List.nil_append, processRows, hrow]
      cases hps : processRows post <;> simp
  | cons p t ih =>
      cases hp : processRow p with
      | error e => simp [processRows, hp]
      | ok o => simp [processRows, hp, ih]

/-- Witness for C4 at the empty row with empty surrounding row lists. -/
theorem wrong_count_row_dropped_witness :
    (tokenizeRow (cleanRow [])).length ≠ COLUMNS.length ∧
    COLUMNS.length = 62 ∧
    processRow [] = .ok none ∧ processRows [[]] = processRows [] := by
  have h : (tokenizeRow (cleanRow ([] : List Char))).length ≠ COLUMNS.length := by decide
  have h2 := wrong_count_row_dropped [] h
  exact ⟨h, h2.1, h2.2.1, h2.2.2 [] []⟩


/-- `getD` of a zip is the pair of the `getD`s, within bounds. -/
theorem getD_zip {α β : Type} (l₁ : List α) (l₂ : List β) (i : Nat) (d₁ : α) (d₂ : β)
    (h₁ : i < l₁.length) (h₂ : i < l₂.length) :
    (l₁.zip l₂).getD i (d₁, d₂) = (l₁.getD i d₁, l₂.getD i d₂) := by
  induction l₁ generalizing l₂ i with
  | nil => simp at h₁
  | cons a t ih =>
      cases l₂ with
      | nil => simp at h₂
      | cons b t₂ =>
          cases i with
          | zero => simp
          | succ n =>
              simp only [List.zip_cons_cons, List.getD_cons_succ]
              exact ih t₂ n (by simpa using h₁) (by simpa using h₂)

/-- When every pair types successfully, `buildRecord` succeeds, keeps the
column names in order, and types the i-th token under the i-th column. -/
theorem buildRecord_ok_of_types (pairs : List (String × String))
    (h : ∀ i, i < pairs.length →
      (typeValue (pairs.getD i ("", "")).1 (pairs.getD i ("", "")).2).isOk = true) :
    ∃ rec : Record, buildRecord pairs = .ok rec ∧
      rec.map Prod.fst = pairs.map Prod.fst ∧
      ∀ i, i < pairs.length →
        typeValue (pairs.getD i ("", "")).1 (pairs.getD i ("", "")).2 =
          .ok ((rec.getD i ("", FieldValue.null)).2) := by
  induction pairs with
  | nil => exact ⟨[], rfl, rfl, fun i hi => by simp at hi⟩
  | cons p t ih =>
      obtain ⟨col, val⟩ := p
      have h0 := h 0 (by simp)
      simp only [List.getD_cons_zero] at h0
      cases hv : typeValue col val with
      | error e => rw [hv] at h0; simp [Except.isOk, Except.toBool] at h0
      | ok v =>
          have ht : ∀ i, i < t.length →
              (typeValue ((t.getD i ("", "")).1) ((t.getD i ("", "")).2)).isOk = true := by
            intro i hi
            have h1 := h (i + 1) (by simp; omega)
            simpa using h1
          obtain ⟨rec, hrec, hfst, hty⟩ := ih ht
          refine ⟨(col, v) :: rec, ?_, ?_, ?_⟩
          · unfold buildRecord; rw [hv, hrec]
          · simp [hfst]
          · intro i hi
            cases i with
            | zero => simpa using hv
            | succ n =>
                simp only [List.getD_cons_succ]
                exact hty n (by simp at hi; omega)

/-- A row of schema length all of whose tokens type successfully is
processed into exactly one record, in schema order. -/
theorem processRow_ok_of_types (row : List Char)
    (hlen : (tokenizeRow (cleanRow row)).length = COLUMNS.length)
    (hty : ∀ i, i < COLUMNS.length →
      (typeValue (COLUMNS.getD i "") ((tokenizeRow (cleanRow row)).getD i "")).isOk = true) :
    ∃ rec : Record, processRow row = .ok (some rec) ∧
      rec.map Prod.fst = COLUMNS ∧
      ∀ i, i < COLUMNS.length →
        typeValue (COLUMNS.getD i "") ((tokenizeRow (cleanRow row)).getD i "") =
          .ok ((rec.getD i ("", FieldValue.null)).2) := by
  have hzlen : (COLUMNS.zip (tokenizeRow (cleanRow row))).length = COLUMNS.length := by
    simp [List.length_zip, hlen]
  have hpairs : ∀ i, i < COLUMNS.length →
      ((COLUMNS.zip (tokenizeRow (cleanRow row))).getD i ("", ""))
        = (COLUMNS.getD i "", (tokenizeRow (cleanRow row)).getD i "") := by
    intro i hi
    exact getD_zip _ _ i "" "" hi (by omega)
  obtain ⟨rec, hb, hf, hh⟩ := buildRecord_ok_of_types (COLUMNS.zip (tokenizeRow (cleanRow row)))
    (fun i hi => by
      rw [hpairs i (by omega)]
      exact hty i (by omega))
  refine ⟨rec, ?_, ?_, ?_⟩
  · unfold processRow
    simp only [hlen, if_pos, hb]
  · rw [hf]
    exact List.map_fst_zip _ _ (by omega)
  · intro i hi
    have := hh i (by omega)
    rwa [hpairs i hi] at this


/-- C6 counterexample: the tuple of `badAnoSql` tokenizes to exactly the
schema length, yet no record is produced — the `int()` conversion of the
`ano` token `9z` raises instead. -/
theorem schema_length_tuple_counterexample :
    (tokenizeRow (cleanRow badAnoRow)).length = COLUMNS.length ∧
    allRows badAnoSql = [badAnoRow] ∧
    parse_sql_insert_values badAnoSql = .error "9z" :=
  ⟨by decide, by decide, by decide⟩

/-- C6 as amended: a tuple that tokenizes to exactly the schema length and
all of whose tokens convert successfully yields exactly one record with the
62 typed fields bound to the schema columns in schema order, the i-th token
under the i-th column. -/
theorem schema_length_tuple_one_record (row : List Char)
    (hlen : (tokenizeRow (cleanRow row)).length = COLUMNS.length)
    (hty : ∀ i, i < COLUMNS.length →
      (typeValue (COLUMNS.getD i "") ((tokenizeRow (cleanRow row)).getD i "")).isOk = true) :
    ∃ rec : Record, processRow row = .ok (some rec) ∧
      rec.length = COLUMNS.length ∧
      rec.map Prod.fst = COLUMNS ∧
      ∀ i, i < COLUMNS.length →
        typeValue (COLUMNS.getD i "") ((tokenizeRow (cleanRow row)).getD i "") =
          .ok ((rec.getD i ("", FieldValue.null)).2) := by
  obtain ⟨rec, h1, h2, h3⟩ := processRow_ok_of_types row hlen hty
  refine ⟨rec, h1, ?_, h2, h3⟩
  have := congrArg List.length h2
  simpa using this

/-- Witness for the amended C6 at the all-zero row. -/
theorem schema_length_tuple_one_record_witness :
    processRow goodRow = .ok (some goodRec) ∧ goodRec.map Prod.fst = COLUMNS := by
  obtain ⟨rec, h1, -, h2, -⟩ := schema_length_tuple_one_record goodRow (by decide) (by decide)
  have hg : processRow goodRow = .ok (some goodRec) := by decide
  have he : rec = goodRec := by
    rw [h1] at hg
    simpa using hg
  exact ⟨h1.trans (by rw [he]), he ▸ h2⟩

/-- `typeValue` succeeds unless the column is integer-designated and the
token is nonempty, not the quoted-empty literal, and not an integer
literal. -/
theorem typeValue_cases (col t : String) :
    (typeValue col t).isOk = true ∨
    (isIntCol col = true ∧ t ≠ "" ∧ t ≠ quotedEmpty ∧ pyInt? t = none) := by
  unfold typeValue
  split
  · left; rfl
  next hempty =>
    have hne : t ≠ "" ∧ t ≠ quotedEmpty := by
      constructor <;> (intro h; apply hempty; simp [h])
    split
    next hc =>
      cases hp : pyInt? t with
      | some n => left; simp [Except.isOk, Except.toBool]
      | none =>
          right
          refine ⟨?_, hne.1, hne.2, rfl⟩
          simp only [Bool.or_eq_true, decide_eq_true_eq] at hc
          simp [isIntCol]
          tauto
    next hc1 =>
      split
      next hc =>
        cases hp : pyInt? t with
        | some n => left; simp [Except.isOk, Except.toBool]
        | none =>
            right
            refine ⟨?_, hne.1, hne.2, rfl⟩
            simp only [Bool.or_eq_true, decide_eq_true_eq] at hc
            have hc2 : strStartsWith col "nota_" = true ∨ strStartsWith col "alerta_" = true ∨
                col ∈ auxIntCols := by
              rcases hc with (h | h) | h
              · exact Or.inl h
              · exact Or.inr (Or.inl h)
              · exact Or.inr (Or.inr (by simpa using h))
            simp [isIntCol, auxIntCols] at hc2 ⊢
            tauto
      next hc2 =>
        split
        next hc =>
          cases hp : pyInt? t with
          | some n => left; simp [Except.isOk, Except.toBool]
          | none =>
              right
              refine ⟨?_, hne.1, hne.2, rfl⟩
              simp only [Bool.or_eq_true, decide_eq_true_eq] at hc
              simp [isIntCol]
              tauto
        next hc3 =>
          left; simp [Except.isOk, Except.toBool]

/-- `typeValue` succeeds whenever integer-designated columns receive an
empty, quoted-empty, or integer token. -/
theorem typeValue_ok_of (col t : String)
    (h : isIntCol col = true → t = "" ∨ t = quotedEmpty ∨ (pyInt? t).isSome = true) :
    (typeValue col t).isOk = true := by
  rcases typeValue_cases col t with h1 | ⟨hic, hne, hnq, hp⟩
  · exact h1
  · rcases h hic with h2 | h2 | h2
    · exact absurd h2 hne
    · exact absurd h2 hnq
    · rw [hp] at h2; simp at h2

/-- A row whose 62-token form, if reached, has only convertible tokens in
integer-designated positions, is processed without error. -/
theorem processRow_ok_total (row : List Char)
    (h : (tokenizeRow (cleanRow row)).length = COLUMNS.length →
         ∀ i, i < COLUMNS.length → isIntCol (COLUMNS.getD i "") = true →
           (tokenizeRow (cleanRow row)).getD i "" = "" ∨
           (tokenizeRow (cleanRow row)).getD i "" = quotedEmpty ∨
           (pyInt? ((tokenizeRow (cleanRow row)).getD i "")).isSome = true) :
    ∃ o, processRow row = .ok o := by
  by_cases hlen : (tokenizeRow (cleanRow row)).length = COLUMNS.length
  · obtain ⟨rec, h1, -, -⟩ := processRow_ok_of_types row hlen (fun i hi =>
      typeValue_ok_of _ _ (fun hic => h hlen i hi hic))
    exact ⟨some rec, h1⟩
  · refine ⟨none, ?_⟩
    unfold processRow
    simp [hlen]

/-- A list of rows each of which processes without error is parsed without
error. -/
theorem processRows_ok_of (rows : List (List Char))
    (h : ∀ row ∈ rows, ∃ o, processRow row = .ok o) :
    ∃ rs, processRows rows = .ok rs := by
  induction rows with
  | nil => exact ⟨[], rfl⟩
  | cons r t ih =>
      obtain ⟨o, ho⟩ := h r (by simp)
      obtain ⟨rs, hrs⟩ := ih (fun x hx => h x (by simp [hx]))
      cases o with
      | some rec => exact ⟨rec :: rs, by simp [processRows, ho, hrs]⟩
      | none => exact ⟨rs, by simp [processRows, ho, hrs]⟩

/-- C1 counterexample: an input whose 62-token tuple carries the
non-numeric token `x` in the integer column `cd_sistema` makes
`parse_sql_insert_values` raise (a `ValueError` escapes) instead of
skipping the malformed row. -/
theorem parse_raises_counterexample :
    parse_sql_insert_values badIntSql = .error "x" := by decide

/-- C1 as amended: `parse_sql_insert_values` returns a record list without
raising provided every schema-length row carries only empty, quoted-empty,
or integer tokens in its integer-designated positions; rows of any other
token count never raise. -/
theorem parse_returns_amended (sql : String)
    (h : ∀ row ∈ allRows sql,
      (tokenizeRow (cleanRow row)).length = COLUMNS.length →
      ∀ i, i < COLUMNS.length → isIntCol (COLUMNS.getD i "") = true →
        (tokenizeRow (cleanRow row)).getD i "" = "" ∨
        (tokenizeRow (cleanRow row)).getD i "" = quotedEmpty ∨
        (pyInt? ((tokenizeRow (cleanRow row)).getD i "")).isSome = true) :
    ∃ rs, parse_sql_insert_values sql = .ok rs := by
  unfold parse_sql_insert_values
  exact processRows_ok_of _ (fun row hrow => processRow_ok_total row (h row hrow))

/-- Witness for the amended C1 at `goodSql`. -/
theorem parse_returns_amended_witness :
    parse_sql_insert_values goodSql = .ok [goodRec] := by
  obtain ⟨rs, h1⟩ := parse_returns_amended goodSql (by decide)
  have h3 : parse_sql_insert_values goodSql = .ok [goodRec] := by decide
  rw [h1] at h3 ⊢
  exact h3


/-- A successful coercion for an integer-designated column is never text. -/
theorem typeValue_intCol (col val : String) (v : FieldValue)
    (hcol : isIntCol col = true) (h : typeValue col val = .ok v) :
    v = FieldValue.null ∨ ∃ n : Int, v = FieldValue.intVal n := by
  unfold typeValue at h
  split at h
  · rw [Except.ok.injEq] at h
    exact Or.inl h.symm
  next hempty =>
    split at h
    next hc =>
      cases hp : pyInt? val with
      | some n => rw [hp, Except.ok.injEq] at h; exact Or.inr ⟨n, h.symm⟩
      | none => rw [hp] at h; simp at h
    next hc1 =>
      split at h
      next hc =>
        cases hp : pyInt? val with
        | some n => rw [hp, Except.ok.injEq] at h; exact Or.inr ⟨n, h.symm⟩
        | none => rw [hp] at h; simp at h
      next hc2 =>
        split at h
        next hc =>
          cases hp : pyInt? val with
          | some n => rw [hp, Except.ok.injEq] at h; exact Or.inr ⟨n, h.symm⟩
          | none => rw [hp] at h; simp at h
        next hc3 =>
          exfalso
          simp [isIntCol] at hcol
          simp [auxIntCols, not_or] at hc1 hc2 hc3
          simp_all

/-- Every field of a successfully built record is the successful coercion
of the corresponding input pair. -/
theorem buildRecord_mem (pairs : List (String × String)) :
    ∀ (rec : Record), buildRecord pairs = .ok rec →
    ∀ c v, (c, v) ∈ rec → ∃ val, (c, val) ∈ pairs ∧ typeValue c val = .ok v := by
  induction pairs with
  | nil =>
      intro rec h c v hm
      unfold buildRecord at h
      rw [Except.ok.injEq] at h
      subst h
      simp at hm
  | cons p t ih =>
      obtain ⟨col, val⟩ := p
      intro rec h c v hm
      unfold buildRecord at h
      cases hv : typeValue col val with
      | error e => rw [hv] at h; simp at h
      | ok w =>
          rw [hv] at h
          cases hb : buildRecord t with
          | error e => rw [hb] at h; simp at h
          | ok r =>
              rw [hb, Except.ok.injEq] at h
              subst h
              rcases List.mem_cons.mp hm with h1 | h1
              · injection h1 with h1a h1b
                subst h1a
                subst h1b
                exact ⟨val, by simp, hv⟩
              · obtain ⟨val2, hmem, hty⟩ := ih r hb c v h1
                exact ⟨val2, by simp [hmem], hty⟩

/-- A processed row that yields a record built it from the zipped schema
and token list. -/
theorem processRow_ok_inv (row : List Char) (rec : Record)
    (h : processRow row = .ok (some rec)) :
    buildRecord (COLUMNS.zip (tokenizeRow (cleanRow row))) = .ok rec := by
  simp only [processRow] at h
  split at h
  · cases hb : buildRecord (COLUMNS.zip (tokenizeRow (cleanRow row))) with
    | error e => rw [hb] at h; simp at h
    | ok r =>
        rw [hb] at h
        simp only [Except.ok.injEq, Option.some.injEq] at h
        rw [h]
  · simp at h

/-- Every parsed record stems from processing some input row. -/
theorem processRows_mem (rows : List (List Char)) :
    ∀ (rs : List Record), processRows rows = .ok rs →
    ∀ r ∈ rs, ∃ row ∈ rows, processRow row = .ok (some r) := by
  induction rows with
  | nil =>
      intro rs h r hr
      unfold processRows at h
      rw [Except.ok.injEq] at h
      subst h
      simp at hr
  | cons row t ih =>
      intro rs h r hr
      unfold processRows at h
      cases hp : processRow row with
      | error e => rw [hp] at h; simp at h
      | ok o =>
          rw [hp] at h
          cases ht : processRows t with
          | error e => rw [ht] at h; simp at h
          | ok rs2 =>
              rw [ht] at h
              cases o with
              | some rec =>
                  rw [Except.ok.injEq] at h
                  subst h
                  rcases List.mem_cons.mp hr with h1 | h1
                  · exact ⟨row, by simp, by rw [h1]; exact hp⟩
                  · obtain ⟨row2, hm, hpr⟩ := ih rs2 ht r h1
                    exact ⟨row2, by simp [hm], hpr⟩
              | none =>
                  rw [Except.ok.injEq] at h
                  subst h
                  obtain ⟨row2, hm, hpr⟩ := ih rs2 ht r hr
                  exact ⟨row2, by simp [hm], hpr⟩

/-- C3: in every record produced by `parse_sql_insert_values`, every
integer-designated column (the `cd_` codes, `ano`, `mes`, every `nota_`
and `alerta_` column, `total`, `nu_justificativa`, `nu_plano`,
`st_justificativa`, `st_plano`) holds an integer or null, never text. -/
theorem int_columns_int_or_null (sql : String) (rs : List Record)
    (h : parse_sql_insert_values sql = .ok rs) :
    ∀ r ∈ rs, ∀ col v, (col, v) ∈ r → isIntCol col = true →
      v = FieldValue.null ∨ ∃ n : Int, v = FieldValue.intVal n := by
  intro r hr col v hm hcol
  obtain ⟨row, -, hpr⟩ := processRows_mem (allRows sql) rs h r hr
  have hb := processRow_ok_inv row r hpr
  obtain ⟨val, -, hty⟩ := buildRecord_mem _ r hb col v hm
  exact typeValue_intCol col val v hcol hty

/-- Witness for C3 at `goodSql` and the `ano` column. -/
theorem int_columns_int_or_null_witness :
    parse_sql_insert_values goodSql = .ok [goodRec] ∧
    ("ano", FieldValue.intVal 0) ∈ goodRec ∧ isIntCol "ano" = true ∧
    (FieldValue.intVal 0 = FieldValue.null ∨
      ∃ n : Int, FieldValue.intVal 0 = FieldValue.intVal n) := by
  have hp : parse_sql_insert_values goodSql = .ok [goodRec] := by decide
  refine ⟨hp, by decide, by decide, ?_⟩
  exact int_columns_int_or_null goodSql [goodRec] hp goodRec (by simp)
    "ano" (FieldValue.intVal 0) (by decide) (by decide)


/-- Flattening after `addToGroup` is a permutation of the old flattening
with the new record appended. -/
theorem flatten_addToGroup (gs : List (String × List Record)) (k : String) (r : Record) :
    ((addToGroup gs k r).flatMap (fun g => g.2)).Perm
      ((gs.flatMap (fun g => g.2)) ++ [r]) := by
  induction gs with
  | nil => simp [addToGroup]
  | cons g t ih =>
      obtain ⟨k2, rs⟩ := g
      by_cases hk : k2 = k
      · subst hk
        simp only [addToGroup, if_pos, List.flatMap_cons]
        rw [List.append_assoc, List.append_assoc]
        exact List.Perm.append_left rs List.perm_append_comm
      · simp only [addToGroup, if_neg hk, List.flatMap_cons]
        rw [List.append_assoc]
        exact List.Perm.append_left rs ih

/-- `addToGroup` preserves the invariant that every group holds only
records of its own key. -/
theorem addToGroup_key_inv (gs : List (String × List Record)) (k : String) (r : Record)
    (hinv : ∀ g ∈ gs, ∀ x ∈ g.2, coopKey x = g.1) (hk : coopKey r = k) :
    ∀ g ∈ addToGroup gs k r, ∀ x ∈ g.2, coopKey x = g.1 := by
  induction gs with
  | nil =>
      intro g hg x hx
      simp [addToGroup] at hg
      subst hg
      simp at hx
      rw [hx]
      exact hk
  | cons g0 t ih =>
      obtain ⟨k2, rs⟩ := g0
      by_cases hk2 : k2 = k
      · subst hk2
        intro g hg x hx
        simp only [addToGroup, if_pos] at hg
        rcases List.mem_cons.mp hg with h1 | h1
        · subst h1
          rcases List.mem_append.mp hx with h2 | h2
          · exact hinv (k2, rs) (by simp) x h2
          · simp at h2
            rw [h2, hk]
        · exact hinv g (by simp [h1]) x hx
      · intro g hg x hx
        simp only [addToGroup, if_neg hk2] at hg
        rcases List.mem_cons.mp hg with h1 | h1
        · subst h1
          exact hinv (k2, rs) (by simp) x hx
        · exact ih (fun g2 hg2 => hinv g2 (by simp [hg2])) g h1 x hx

/-- `addToGroup` either keeps the key list or appends a fresh key. -/
theorem keys_addToGroup (gs : List (String × List Record)) (k : String) (r : Record) :
    (addToGroup gs k r).map Prod.fst = gs.map Prod.fst ∨
    ((addToGroup gs k r).map Prod.fst = gs.map Prod.fst ++ [k] ∧
      k ∉ gs.map Prod.fst) := by
  induction gs with
  | nil => right; simp [addToGroup]
  | cons g t ih =>
      obtain ⟨k2, rs⟩ := g
      by_cases hk : k2 = k
      · left; simp [addToGroup, hk]
      · rcases ih with h | ⟨h1, h2⟩
        · left; simp [addToGroup, hk, h]
        · right
          refine ⟨by simp [addToGroup, hk, h1], ?_⟩
          simp only [List.map_cons, List.mem_cons, not_or]
          exact ⟨fun he => hk he.symm, h2⟩

/-- `addToGroup` preserves distinctness of the group keys. -/
theorem nodup_keys_addToGroup (gs : List (String × List Record)) (k : String) (r : Record)
    (h : (gs.map Prod.fst).Nodup) :
    ((addToGroup gs k r).map Prod.fst).Nodup := by
  rcases keys_addToGroup gs k r with h1 | ⟨h1, h2⟩
  · rwa [h1]
  · rw [h1]
    simp [List.nodup_append, h, h2]

/-- The three grouping invariants of the `by_cooperativa` fold, for an
arbitrary starting accumulator. -/
theorem by_cooperativa_foldl_inv (records : List Record) :
    ∀ gs : List (String × List Record),
      ((records.foldl (fun acc r => addToGroup acc (coopKey r) r) gs).flatMap
          (fun g => g.2)).Perm ((gs.flatMap (fun g => g.2)) ++ records) ∧
      ((∀ g ∈ gs, ∀ x ∈ g.2, coopKey x = g.1) →
        ∀ g ∈ records.foldl (fun acc r => addToGroup acc (coopKey r) r) gs,
          ∀ x ∈ g.2, coopKey x = g.1) ∧
      ((gs.map Prod.fst).Nodup →
        ((records.foldl (fun acc r => addToGroup acc (coopKey r) r) gs).map
          Prod.fst).Nodup) := by
  induction records with
  | nil => intro gs; simp
  | cons r t ih =>
      intro gs
      obtain ⟨ih1, ih2, ih3⟩ := ih (addToGroup gs (coopKey r) r)
      refine ⟨?_, ?_, ?_⟩
      · simp only [List.foldl_cons]
        have h2 := (flatten_addToGroup gs (coopKey r) r).append_right t
        have h3 := ih1.trans h2
        rwa [List.append_assoc, List.singleton_append] at h3
      · intro hinv
        simp only [List.foldl_cons]
        exact ih2 (addToGroup_key_inv gs (coopKey r) r hinv rfl)
      · intro hnd
        simp only [List.foldl_cons]
        exact ih3 (nodup_keys_addToGroup gs (coopKey r) r hnd)

/-- C7: grouping by `cd_cooperativa` places each record in exactly one
group — every group holds only records of its own key and the keys are
distinct — and the concatenation of all group lists is a permutation of
the full record list. -/
theorem grouping_partitions (records : List Record) :
    (((by_cooperativa records).flatMap (fun g => g.2)).Perm records) ∧
    (∀ g ∈ by_cooperativa records, ∀ r ∈ g.2, coopKey r = g.1) ∧
    ((by_cooperativa records).map Prod.fst).Nodup := by
  obtain ⟨h1, h2, h3⟩ := by_cooperativa_foldl_inv records []
  exact ⟨by simpa using h1, h2 (by simp), h3 (by simp)⟩


/-- The per-group record counts sum to the total record count. -/
theorem sum_group_lengths (records : List Record) :
    ((by_cooperativa records).map (fun g => g.2.length)).sum = records.length := by
  have h : ((by_cooperativa records).flatMap (fun g => g.2)).Perm records := by
    simpa using (by_cooperativa_foldl_inv records []).1
  have h2 := h.length_eq
  rw [List.length_flatMap] at h2
  simpa [Function.comp] using h2

/-- C8: for a non-empty record list, the consolidated total_records count,
the number of CSV data rows, and the sum of the per-entity group
total_registros counts all equal the record list length. -/
theorem counts_agree (records : List Record) (h : records ≠ []) :
    (save_to_json_model records).1.total_records = records.length ∧
    save_to_csv_model records = some (COLUMNS :: records.map csvRowOf) ∧
    (records.map csvRowOf).length = records.length ∧
    ((save_to_json_model records).2.map (fun kf => kf.2.total_registros)).sum
      = records.length := by
  refine ⟨rfl, ?_, by simp, ?_⟩
  · simp [save_to_csv_model, h]
  · have he : (save_to_json_model records).2.map (fun kf => kf.2.total_registros)
        = (by_cooperativa records).map (fun g => g.2.length) := by
      simp [save_to_json_model, coopFileOf, List.map_map, Function.comp]
    rw [he, sum_group_lengths]

/-- Witness for C8 at a one-record list. -/
theorem counts_agree_witness :
    ([[("cd_cooperativa", FieldValue.intVal 7)]] : List Record) ≠ [] ∧
    (save_to_json_model [[("cd_cooperativa", FieldValue.intVal 7)]]).1.total_records = 1 ∧
    ((save_to_json_model [[("cd_cooperativa", FieldValue.intVal 7)]]).2.map
      (fun kf => kf.2.total_registros)).sum = 1 := by
  have h := counts_agree [[("cd_cooperativa", FieldValue.intVal 7)]] (by simp)
  exact ⟨by simp, h.1, h.2.2.2⟩

/-- C9: a missing source file is reported and neither the input read nor
any output written; an extraction of zero records is warned about and no
JSON, CSV, or per-entity file is written. -/
theorem failure_paths_report (content : String) (effs : List Effect) :
    (main_model false content = .ok effs →
      Effect.readSource ∉ effs ∧ (∀ p, Effect.write p ∉ effs) ∧
      Effect.print msgMissing ∈ effs) ∧
    (parse_sql_insert_values content = .ok [] → main_model true content = .ok effs →
      (∀ p, Effect.write p ∉ effs) ∧ Effect.print msgNoRecords ∈ effs) := by
  constructor
  · intro h
    simp only [main_model, Bool.not_false, if_true] at h
    rw [Except.ok.injEq] at h
    subst h
    refine ⟨by simp, fun p => by simp, by simp⟩
  · intro hp h
    simp only [main_model, Bool.not_true, hp] at h
    rw [if_neg (by simp)] at h
    simp only [List.isEmpty_nil, if_pos] at h
    rw [Except.ok.injEq] at h
    subst h
    refine ⟨fun p => by simp, by simp⟩

/-- Witness for C9: the missing-file trace and the zero-record trace. -/
theorem failure_paths_report_witness :
    (Effect.readSource ∉
      [Effect.print "================",
       Effect.print "EXPORTANDO DADOS DO SQL PARA JSON E CSV",
       Effect.print "================", Effect.print msgMissing] ∧
     Effect.write "alerta_cooperativa_sicoob.json" ∉
      [Effect.print "================",
       Effect.print "EXPORTANDO DADOS DO SQL PARA JSON E CSV",
       Effect.print "================", Effect.print msgMissing] ∧
     Effect.print msgMissing ∈
      [Effect.print "================",
       Effect.print "EXPORTANDO DADOS DO SQL PARA JSON E CSV",
       Effect.print "================", Effect.print msgMissing]) ∧
    (Effect.write "alerta_cooperativa_sicoob.csv" ∉
      ([Effect.print "================",
        Effect.print "EXPORTANDO DADOS DO SQL PARA JSON E CSV",
        Effect.print "================",
        Effect.print "📂 Lendo arquivo SQL", Effect.readSource,
        Effect.print "Arquivo lido", Effect.print "🔍 Extraindo dados",
        Effect.print "Extraídos registros"] ++
       [Effect.print msgNoRecords, Effect.print "================"]) ∧
     Effect.print msgNoRecords ∈
      ([Effect.print "================",
        Effect.print "EXPORTANDO DADOS DO SQL PARA JSON E CSV",
        Effect.print "================",
        Effect.print "📂 Lendo arquivo SQL", Effect.readSource,
        Effect.print "Arquivo lido", Effect.print "🔍 Extraindo dados",
        Effect.print "Extraídos registros"] ++
       [Effect.print msgNoRecords, Effect.print "================"])) := by
  have h1 := (failure_paths_report "x"
    [Effect.print "================",
     Effect.print "EXPORTANDO DADOS DO SQL PARA JSON E CSV",
     Effect.print "================", Effect.print msgMissing]).1 (by decide)
  have h2 := (failure_paths_report "x"
    ([Effect.print "================",
      Effect.print "EXPORTANDO DADOS DO SQL PARA JSON E CSV",
      Effect.print "================",
      Effect.print "📂 Lendo arquivo SQL", Effect.readSource,
      Effect.print "Arquivo lido", Effect.print "🔍 Extraindo dados",
      Effect.print "Extraídos registros"] ++
     [Effect.print msgNoRecords, Effect.print "================"])).2
    (by decide) (by decide)
  exact ⟨⟨h1.1, h1.2.1 _, h1.2.2⟩, h2.1 _, h2.2⟩

/-- A successful parse is the in-order `filterMap` of row processing. -/
theorem processRows_ok_filterMap (rows : List (List Char)) :
    ∀ rs : List Record, processRows rows = .ok rs → rs = rows.filterMap rowRecord? := by
  induction rows with
  | nil =>
      intro rs h
      unfold processRows at h
      rw [Except.ok.injEq] at h
      simp [← h]
  | cons row t ih =>
      intro rs h
      unfold processRows at h
      cases hp : processRow row with
      | error e => rw [hp] at h; simp at h
      | ok o =>
          rw [hp] at h
          cases ht : processRows t with
          | error e => rw [ht] at h; simp at h
          | ok rs2 =>
              rw [ht] at h
              cases o with
              | some rec =>
                  rw [Except.ok.injEq] at h
                  subst h
                  simp only [List.filterMap_cons, rowRecord?, hp]
                  rw [← ih rs2 ht]
              | none =>
                  rw [Except.ok.injEq] at h
                  subst h
                  simp only [List.filterMap_cons, rowRecord?, hp]
                  exact ih rs2 ht

/-- `addToGroup` keeps every group a sublist of the records seen so far. -/
theorem addToGroup_sublist (gs : List (String × List Record)) (k : String) (r : Record)
    (A : List Record) (h : ∀ g ∈ gs, g.2.Sublist A) :
    ∀ g ∈ addToGroup gs k r, g.2.Sublist (A ++ [r]) := by
  induction gs with
  | nil =>
      intro g hg
      simp [addToGroup] at hg
      subst hg
      exact List.sublist_append_right A [r]
  | cons g0 t ih =>
      obtain ⟨k2, rs⟩ := g0
      by_cases hk : k2 = k
      · intro g hg
        simp only [addToGroup, if_pos hk] at hg
        rcases List.mem_cons.mp hg with h1 | h1
        · subst h1
          exact (h (k2, rs) (by simp)).append (List.Sublist.refl [r])
        · exact (h g (by simp [h1])).trans (List.sublist_append_left A [r])
      · intro g hg
        simp only [addToGroup, if_neg hk] at hg
        rcases List.mem_cons.mp hg with h1 | h1
        · subst h1
          exact (h (k2, rs) (by simp)).trans (List.sublist_append_left A [r])
        · exact ih (fun g2 hg2 => h g2 (by simp [hg2])) g h1

/-- Every group of the `by_cooperativa` fold is a sublist of the records
folded in, relative to any valid accumulator. -/
theorem by_cooperativa_sublist_inv (records : List Record) :
    ∀ (gs : List (String × List Record)) (A : List Record),
      (∀ g ∈ gs, g.2.Sublist A) →
      ∀ g ∈ records.foldl (fun acc r => addToGroup acc (coopKey r) r) gs,
        g.2.Sublist (A ++ records) := by
  induction records with
  | nil => intro gs A h g hg; simpa using h g hg
  | cons r t ih =>
      intro gs A h g hg
      simp only [List.foldl_cons] at hg
      have h2 := ih (addToGroup gs (coopKey r) r) (A ++ [r])
        (addToGroup_sublist gs (coopKey r) r A h) g hg
      rwa [List.append_assoc, List.singleton_append] at h2

/-- C10: a successful parse lists its records in input-tuple order, the
consolidated data list is that same list, the CSV data rows map it in
order, and each per-entity file lists its records as an order-preserving
sublist of it. -/
theorem output_order_preserved (sql : String) (rs : List Record)
    (h : parse_sql_insert_values sql = .ok rs) :
    rs = (allRows sql).filterMap rowRecord? ∧
    (consolidated rs).data = rs ∧
    (rs = [] ∨ save_to_csv_model rs = some (COLUMNS :: rs.map csvRowOf)) ∧
    ∀ kf ∈ (save_to_json_model rs).2, kf.2.periodos.Sublist rs := by
  refine ⟨processRows_ok_filterMap (allRows sql) rs h, rfl, ?_, ?_⟩
  · by_cases he : rs = []
    · exact Or.inl he
    · right
      simp [save_to_csv_model, he]
  · intro kf hkf
    simp only [save_to_json_model, List.mem_map] at hkf
    obtain ⟨g, hg, rfl⟩ := hkf
    have h2 := by_cooperativa_sublist_inv rs [] [] (by simp) g hg
    simpa [coopFileOf] using h2

/-- Witness for C10 at `goodSql`. -/
theorem output_order_preserved_witness :
    parse_sql_insert_values goodSql = .ok [goodRec] ∧
    [goodRec] = (allRows goodSql).filterMap rowRecord? ∧
    (consolidated [goodRec]).data = [goodRec] := by
  have hp : parse_sql_insert_values goodSql = .ok [goodRec] := by decide
  have h := output_order_preserved goodSql [goodRec] hp
  exact ⟨hp, h.1, h.2.1⟩

end ParseSqlData
